import Mathlib

/-!
Verification of the transcript-extraction core of the context tool
(context.py) and the llm tool wrapper (llm_tools_context.py).

Text is modelled as List Char (the decoded buffer handed to the core).
Python whitespace handling, str.lower and str.isdigit are modelled on
their ASCII fragment, which is the fragment the claims exercise.
-/

/-- The six ASCII characters Python treats as whitespace in str.strip and
in the regex class backslash-s. -/
def pyIsSpace (c : Char) : Bool :=
  c = ' ' || c = '\t' || c = '\n' || c = '\r' || c = '\x0b' || c = '\x0c'

/-- Python str.lstrip with no arguments. -/
def pyStripLeft (cs : List Char) : List Char := cs.dropWhile pyIsSpace

/-- Python str.rstrip with no arguments. -/
def pyStripRight (cs : List Char) : List Char :=
  (cs.reverse.dropWhile pyIsSpace).reverse

/-- Python str.strip with no arguments. -/
def pyStrip (cs : List Char) : List Char := pyStripRight (pyStripLeft cs)

/-- Python s.startswith(p), on char lists. -/
def listStartsWith (p l : List Char) : Bool := l.take p.length == p

/-- Python substring containment, needle in haystack. -/
def containsSeq : List Char → List Char → Bool
  | needle, [] => needle == []
  | needle, c :: rest => listStartsWith needle (c :: rest) || containsSeq needle rest

/-- Python text.split with a newline separator. -/
def splitLines : List Char → List (List Char)
  | [] => [[]]
  | c :: rest =>
    if c = '\n' then [] :: splitLines rest
    else
      match splitLines rest with
      | [] => [[c]]
      | l :: ls => (c :: l) :: ls

/-- Python newline.join on a list of lines. -/
def joinLines : List (List Char) → List Char
  | [] => []
  | [l] => l
  | l :: ls => l ++ '\n' :: joinLines ls

/-!
Preprocessing, from parse_transcript in context.py:
  text = text.replace(CRLF, LF).replace(CR, LF)
  leading BOM / BOM-artifact strip
  drop lines whose lstrip starts with the marker
-/

/-- One pass over the text; the flag records that the previous character
was a CR, whose LF partner must then be dropped.  Each CR becomes an LF
and a CRLF pair becomes a single LF, which is the combined effect of the
two sequential Python replaces, CRLF to LF then CR to LF. -/
def normalizeNewlinesAux : Bool → List Char → List Char
  | _, [] => []
  | prevCr, c :: rest =>
    if c = '\r' then '\n' :: normalizeNewlinesAux true rest
    else if c = '\n' then
      if prevCr then normalizeNewlinesAux false rest
      else '\n' :: normalizeNewlinesAux false rest
    else c :: normalizeNewlinesAux false rest

/-- The line-ending normalization of parse_transcript. -/
def normalizeNewlines (cs : List Char) : List Char := normalizeNewlinesAux false cs

/-- Drop a single leading U+FEFF if present, then lstrip over NUL and
U+FEFF, as in parse_transcript. -/
def stripBOM (cs : List Char) : List Char :=
  (if listStartsWith ['\uFEFF'] cs then cs.drop 1 else cs).dropWhile
    (fun c => c = '\x00' || c = '\uFEFF')

/-- Line begins with the marker token of this tool. -/
def startsWithCc (l : List Char) : Bool := listStartsWith "#c#".data l

/-- Remove every line whose lstrip begins with the marker token, and
rejoin; the line-filter step of parse_transcript. -/
def removeCcLinesText (cs : List Char) : List Char :=
  joinLines ((splitLines cs).filter (fun l => !startsWithCc (l.dropWhile pyIsSpace)))

/-- Full preprocessing of parse_transcript, in source order. -/
def preprocessText (text : List Char) : List Char :=
  removeCcLinesText (stripBOM (normalizeNewlines text))

/-- A whole line of 20 or more asterisks; the separator regex of
parse_transcript, anchored at line start and line end. -/
def isSeparatorLine (l : List Char) : Bool :=
  decide (20 ≤ l.length) && l.all (fun c => c = '*')

/-- Partition a list of lines at separator lines, discarding them; the
line-level equivalent of re.split on the separator pattern (the pieces
re.split returns differ from these joined runs only by the boundary
newlines, which the subsequent strip removes). -/
def splitOnSep : List (List Char) → List (List (List Char))
  | [] => [[]]
  | l :: ls =>
    if isSeparatorLine l then [] :: splitOnSep ls
    else
      match splitOnSep ls with
      | [] => [[l]]
      | seg :: segs => (l :: seg) :: segs

/-!
The prompt regex of parse_transcript, with MULTILINE:
  caret PS backslash-s-plus [A-Za-z] colon [not-newline]-star gt backslash-s-star
Its matching is deterministic here: the whitespace run is maximal (a
letter can never extend it), the [not-newline]-star is greedy so the gt
matched is the last one on that line, and the trailing whitespace run is
maximal.  Note backslash-s also matches a newline, so the whitespace
after PS may span a line break.
-/

/-- Suffix after the last gt character inside the maximal newline-free
prefix, none if there is no such gt. -/
def afterLastGt : List Char → Option (List Char)
  | [] => none
  | c :: rest =>
    if c = '\n' then none
    else
      match afterLastGt rest with
      | some s => some s
      | none => if c = '>' then some rest else none

/-- Continue the prompt regex after the whitespace run: a letter, a
colon, then the newline-free text up to the last gt sign, then the
trailing whitespace run; returns the text after the whole match. -/
def promptAfterSpace : List Char → Option (List Char)
  | c :: d :: rest2 =>
    if c.isAlpha && d = ':' then
      (afterLastGt rest2).map (fun suf => suf.dropWhile pyIsSpace)
    else none
  | _ => none

/-- Try the prompt regex at this position; on success return the text
after the whole match (after the trailing whitespace run), which is what
block[prompt_match.end():] denotes in the source. -/
def matchPromptAt : List Char → Option (List Char)
  | a :: b :: rest =>
    if a = 'P' && b = 'S' then
      if (rest.takeWhile pyIsSpace).isEmpty then none
      else promptAfterSpace (rest.dropWhile pyIsSpace)
    else none
  | _ => none

/-- re.search with the MULTILINE caret: try the pattern at every line
start, leftmost first.  The flag records whether the current position is
a line start. -/
def promptSearchAux : Bool → List Char → Option (List Char)
  | atStart, cs =>
    match (if atStart then matchPromptAt cs else none) with
    | some suf => some suf
    | none =>
      match cs with
      | [] => none
      | c :: rest => promptSearchAux (c = '\n') rest

/-- Text after the first prompt match in a block, none if the prompt
pattern does not occur. -/
def promptSearchSuffix (cs : List Char) : Option (List Char) :=
  promptSearchAux true cs

/-- A single line counts as a prompt marker when the prompt regex
matches at its start. -/
def isPromptLine (l : List Char) : Bool := (matchPromptAt l).isSome

/-- The per-block retention test of parse_transcript: skip empty blocks,
skip blocks without a prompt match, skip blocks whose content right
after the prompt starts with the interruption token. -/
def keepBlock (b : List Char) : Bool :=
  !b.isEmpty &&
    match promptSearchSuffix b with
    | none => false
    | some suf => !listStartsWith "TerminatingError(".data (pyStrip suf)

/-- parse_transcript from context.py: preprocess, split on separator
lines, strip each segment, keep the command blocks. -/
def parse_transcript (text : List Char) : List (List Char) :=
  ((splitOnSep (splitLines (preprocessText text))).map
      (fun seg => pyStrip (joinLines seg))).filter keepBlock

/-- The non-blank trimmed lines of a block, the list comprehension in
filter_self_referential. -/
def nonBlankTrimmedLines (b : List Char) : List (List Char) :=
  ((splitLines b).map pyStrip).filter (fun l => !l.isEmpty)

/-- filter_self_referential from context.py: drop the last block when it
has at most two non-blank trimmed lines whose lowercased join contains
the word context as a substring. -/
def filter_self_referential (blocks : List (List Char)) : List (List Char) :=
  match blocks.getLast? with
  | none => blocks
  | some last_block =>
    if (nonBlankTrimmedLines last_block).length ≤ 2 then
      if containsSeq "context".data
          ((joinLines (nonBlankTrimmedLines last_block)).map Char.toLower) then
        blocks.dropLast
      else blocks
    else blocks

/-- format_output from context.py. -/
def format_output (blocks : List (List Char)) : List Char :=
  if blocks.isEmpty then "#c# No commands found in transcript.".data
  else
    joinLines
      ((blocks.map (fun b =>
        (splitLines b).map (fun l => "#c# ".data ++ l) ++ ["#c# ".data])).flatten)

/-- The selection step of main: blocks[-count:] if blocks else [], for
the validated count (Python slicing with -0 is the whole list). -/
def select_blocks (count : Nat) (blocks : List (List Char)) : List (List Char) :=
  if blocks.isEmpty then []
  else if count = 0 then blocks
  else blocks.drop (blocks.length - count)

/-!
Count-argument handling from main in context.py, and the input
validation of the context tool wrapper in llm_tools_context.py.
-/

/-- Decimal digits with the single interior underscores Python int
accepts, accumulating the value. -/
def digitsValAux : Nat → List Char → Option Nat
  | acc, [] => some acc
  | acc, c :: rest =>
    if c = '_' then
      match rest with
      | [] => none
      | d :: rest2 =>
        if d.isDigit then digitsValAux (acc * 10 + (d.toNat - 48)) rest2 else none
    else if c.isDigit then digitsValAux (acc * 10 + (c.toNat - 48)) rest else none

/-- Value of a digit run, Python int grammar for an unsigned literal. -/
def digitsVal : List Char → Option Nat
  | [] => none
  | c :: rest => if c.isDigit then digitsValAux (c.toNat - 48) rest else none

/-- Python int applied to a string: surrounding whitespace, an optional
sign, then digits (ASCII fragment). -/
def pyInt (s : List Char) : Option Int :=
  match pyStrip s with
  | '-' :: rest => (digitsVal rest).map (fun n => -(n : Int))
  | '+' :: rest => (digitsVal rest).map (fun n => (n : Int))
  | t => (digitsVal t).map (fun n => (n : Int))

/-- Outcome of the count-argument logic in main: show the whole history,
use a count (the flag records that the advisory note for a negative
input was printed to the error channel), or fail validation (main prints
the usage help to the error channel and exits 1). -/
inductive CountResult where
  | all : CountResult
  | use : Nat → Bool → CountResult
  | invalid : CountResult
deriving DecidableEq

/-- The count handling of main: the all flag or the literal word all
selects the whole history; otherwise int conversion, negative values
coerced to their absolute value with an advisory, and a result below 1
raises, which main turns into the validation error. -/
def resolve_count (allFlag : Bool) (arg : List Char) : CountResult :=
  if allFlag || arg == "all".data then CountResult.all
  else
    match pyInt arg with
    | none => CountResult.invalid
    | some i =>
      if i.natAbs < 1 then CountResult.invalid
      else CountResult.use i.natAbs (decide (i < 0))

/-- Outcome of the tool wrapper: run the script with the given extra
argument vector, or return an error string without running it. -/
inductive ToolResult where
  | run : List (List Char) → ToolResult
  | error : List Char → ToolResult
deriving DecidableEq

/-- An apostrophe. -/
def apos : Char := Char.ofNat 39

/-- The rejection message of the context tool wrapper. -/
def invalidInputMsg (ic : List Char) : List Char :=
  "Error: Invalid input".data ++
    ([' ', apos] ++ ic ++ [apos] ++ ". Must be ".data ++ [apos] ++ "all".data ++ [apos] ++
      ", ".data ++ [apos] ++ "-a".data ++ [apos] ++ ", ".data ++ [apos] ++ "--all".data ++
      [apos] ++ ", or a positive integer.".data)

/-- Value of an all-digit string (what Python int returns on a string
that passed isdigit). -/
def decimalVal (cs : List Char) : Nat :=
  cs.foldl (fun a c => a * 10 + (c.toNat - 48)) 0

/-- The context function of llm_tools_context.py, up to the subprocess
call: blank input forwards no argument; the three all spellings are
forwarded lowercased; an all-digit positive value is forwarded; anything
else is rejected with the error message and the script is not run. -/
def context_tool (input : List Char) : ToolResult :=
  if (pyStrip input).isEmpty then ToolResult.run []
  else if ((pyStrip input).map Char.toLower == "all".data
      || (pyStrip input).map Char.toLower == "-a".data
      || (pyStrip input).map Char.toLower == "--all".data) then
    ToolResult.run [(pyStrip input).map Char.toLower]
  else if (pyStrip input).all Char.isDigit && decide (0 < decimalVal (pyStrip input)) then
    ToolResult.run [pyStrip input]
  else ToolResult.error (invalidInputMsg (pyStrip input))

/-!
Definitions written from the claims rather than from the source, for the
refinement comparisons.
-/

/-- Modelled from the claim wording for the prompt marker: PS, then
whitespace, then a drive letter, a colon and a mandatory backslash, then
path text ending in a gt sign. -/
def specPromptLine (l : List Char) : Bool :=
  match l with
  | a :: b :: rest =>
    if a = 'P' && b = 'S' then
      if (rest.takeWhile pyIsSpace).isEmpty then false
      else
        match rest.dropWhile pyIsSpace with
        | c :: d :: e :: rest2 =>
          c.isAlpha && d = ':' && e = '\\' && (afterLastGt rest2).isSome
        | _ => false
    else false
  | _ => false

/-- A regex word character, for the word-boundary reading of the claim. -/
def isWordChar (c : Char) : Bool := c.isAlphanum || c = '_'

/-- The needle occurs at the head of the haystack and the character
after it, if any, is not a word character. -/
def wordHere (n hay : List Char) : Bool :=
  listStartsWith n hay &&
    match hay.drop n.length with
    | [] => true
    | c :: _ => !isWordChar c

/-- Scan for a whole-word occurrence; the flag records whether the
current position follows a non-word character or the start. -/
def containsWordFrom (n : List Char) : List Char → Bool → Bool
  | hay, boundary =>
    (boundary && wordHere n hay) ||
      match hay with
      | [] => false
      | c :: rest => containsWordFrom n rest (!isWordChar c)

/-- Modelled from the claim wording for the self-reference filter: the
text contains the needle as a whole word, regex word boundaries on both
sides. -/
def containsWord (n hay : List Char) : Bool := containsWordFrom n hay true

/-- The drop condition of the self-reference filter, stated with the
substring occurrence made explicit. -/
def SelfRefDrop (b : List Char) : Prop :=
  (nonBlankTrimmedLines b).length ≤ 2 ∧
    ∃ pre post, (joinLines (nonBlankTrimmedLines b)).map Char.toLower
      = pre ++ "context".data ++ post

/-- Remove the first four characters of every line; the strip of the
marker prefixes in the round-trip claim. -/
def stripCcMarks (cs : List Char) : List Char :=
  joinLines ((splitLines cs).map (fun l => l.drop 4))


/-!
Helper lemmas about the text primitives.
-/

theorem splitLines_ne_nil (cs : List Char) : splitLines cs ≠ [] := by
  cases cs with
  | nil => simp [splitLines]
  | cons c rest =>
    by_cases h : c = '\n'
    · simp [splitLines, h]
    · simp only [splitLines, if_neg h]
      cases splitLines rest <;> simp

theorem no_nl_of_mem_splitLines {l cs : List Char} (h : l ∈ splitLines cs) :
    '\n' ∉ l := by
  induction cs generalizing l with
  | nil => simp [splitLines] at h; simp [h]
  | cons c rest ih =>
    by_cases hc : c = '\n'
    · simp [splitLines, hc] at h
      rcases h with h | h
      · simp [h]
      · exact ih h
    · simp only [splitLines, if_neg hc] at h
      rcases hr : splitLines rest with _ | ⟨l0, ls⟩
      · exact absurd hr (splitLines_ne_nil rest)
      · rw [hr] at h
        simp at h
        rcases h with h | h
        · have hl0 : '\n' ∉ l0 := ih (by rw [hr]; exact List.mem_cons_self l0 ls)
          subst h
          simp [hl0, Ne.symm hc]
        · exact ih (by rw [hr]; exact List.mem_cons_of_mem l0 h)

theorem joinLines_splitLines (cs : List Char) : joinLines (splitLines cs) = cs := by
  induction cs with
  | nil => simp [splitLines, joinLines]
  | cons c rest ih =>
    by_cases hc : c = '\n'
    · subst hc
      simp only [splitLines, if_pos rfl]
      rcases hr : splitLines rest with _ | ⟨l0, ls⟩
      · exact absurd hr (splitLines_ne_nil rest)
      · rw [hr] at ih
        simp [joinLines, ih]
    · simp only [splitLines, if_neg hc]
      rcases hr : splitLines rest with _ | ⟨l0, ls⟩
      · exact absurd hr (splitLines_ne_nil rest)
      · rw [hr] at ih
        cases ls with
        | nil => simp [joinLines] at ih ⊢; simp [ih]
        | cons l1 ls1 => simp [joinLines] at ih ⊢; simp [ih]

theorem splitLines_of_no_nl {l : List Char} (h : '\n' ∉ l) : splitLines l = [l] := by
  induction l with
  | nil => simp [splitLines]
  | cons c rest ih =>
    simp at h
    simp only [splitLines, if_neg (Ne.symm h.1)]
    rw [ih h.2]

theorem splitLines_append_nl {l t : List Char} (h : '\n' ∉ l) :
    splitLines (l ++ '\n' :: t) = l :: splitLines t := by
  induction l with
  | nil => simp [splitLines]
  | cons c rest ih =>
    simp at h
    have hs := ih h.2
    show splitLines (c :: (rest ++ '\n' :: t)) = _
    simp only [splitLines, if_neg (Ne.symm h.1)]
    rw [hs]

theorem splitLines_joinLines {ls : List (List Char)} (hne : ls ≠ [])
    (h : ∀ l ∈ ls, '\n' ∉ l) : splitLines (joinLines ls) = ls := by
  induction ls with
  | nil => exact absurd rfl hne
  | cons l rest ih =>
    cases rest with
    | nil => simp [joinLines, splitLines_of_no_nl (h l (by simp))]
    | cons l1 ls1 =>
      have hj : joinLines (l :: l1 :: ls1) = l ++ '\n' :: joinLines (l1 :: ls1) := rfl
      rw [hj, splitLines_append_nl (h l (by simp))]
      rw [ih (by simp) (fun x hx => h x (List.mem_cons_of_mem l hx))]

theorem splitOnSep_of_no_sep {ls : List (List Char)}
    (h : ∀ l ∈ ls, isSeparatorLine l = false) : splitOnSep ls = [ls] := by
  induction ls with
  | nil => simp [splitOnSep]
  | cons l rest ih =>
    have hl : isSeparatorLine l = false := h l (by simp)
    have ih' := ih (fun x hx => h x (List.mem_cons_of_mem l hx))
    simp [splitOnSep, hl, ih']

theorem listStartsWith_iff (p l : List Char) :
    listStartsWith p l = true ↔ ∃ t, l = p ++ t := by
  unfold listStartsWith
  rw [beq_iff_eq]
  constructor
  · intro h
    refine ⟨l.drop p.length, ?_⟩
    conv_lhs => rw [← List.take_append_drop p.length l]
    rw [h]
  · rintro ⟨t, rfl⟩
    exact List.take_left p t

theorem listStartsWith_append (p t : List Char) : listStartsWith p (p ++ t) = true :=
  (listStartsWith_iff p (p ++ t)).2 ⟨t, rfl⟩

theorem containsSeq_iff (n l : List Char) :
    containsSeq n l = true ↔ ∃ pre post, l = pre ++ n ++ post := by
  induction l with
  | nil =>
    constructor
    · intro h
      simp [containsSeq] at h
      exact ⟨[], [], by simp [h]⟩
    · rintro ⟨pre, post, h⟩
      have h' := h.symm
      rw [List.append_eq_nil, List.append_eq_nil] at h'
      simp [containsSeq, h'.1.2]
  | cons c rest ih =>
    simp only [containsSeq, Bool.or_eq_true]
    constructor
    · rintro (h | h)
      · obtain ⟨t, ht⟩ := (listStartsWith_iff n (c :: rest)).1 h
        exact ⟨[], t, by simp [ht]⟩
      · obtain ⟨pre, post, hp⟩ := ih.1 h
        exact ⟨c :: pre, post, by simp [hp]⟩
    · rintro ⟨pre, post, hp⟩
      cases pre with
      | nil =>
        left
        exact (listStartsWith_iff n (c :: rest)).2 ⟨post, by simpa using hp⟩
      | cons d pre' =>
        right
        simp at hp
        exact ih.2 ⟨pre', post, by rw [List.append_assoc]; exact hp.2⟩

/-!
Helper lemmas about the prompt pattern components.
-/

theorem afterLastGt_some {cs suf : List Char} (h : afterLastGt cs = some suf) :
    ∃ mid, cs = mid ++ '>' :: suf ∧ '\n' ∉ mid := by
  induction cs generalizing suf with
  | nil => simp [afterLastGt] at h
  | cons c rest ih =>
    by_cases hc : c = '\n'
    · simp [afterLastGt, hc] at h
    · simp only [afterLastGt, if_neg hc] at h
      rcases hrec : afterLastGt rest with _ | s
      · rw [hrec] at h
        by_cases hg : c = '>'
        · simp [hg] at h
          exact ⟨[], by simp [hg, h], by simp⟩
        · simp [hg] at h
      · rw [hrec] at h
        simp at h
        obtain ⟨mid, hm, hnl⟩ := ih (h ▸ hrec)
        exact ⟨c :: mid, by simp [hm], by simp [hnl, Ne.symm hc]⟩

theorem afterLastGt_isSome {mid : List Char} (t : List Char) (h : '\n' ∉ mid) :
    (afterLastGt (mid ++ '>' :: t)).isSome = true := by
  induction mid with
  | nil =>
    simp only [List.nil_append, afterLastGt]
    rcases afterLastGt t with _ | s <;> simp
  | cons c rest ih =>
    simp at h
    simp only [List.cons_append, afterLastGt, if_neg (Ne.symm h.1)]
    rcases hrec : afterLastGt (rest ++ '>' :: t) with _ | s
    · have hih := ih h.2
      rw [hrec] at hih
      simp at hih
    · simp

theorem takeWhile_all_append {p : Char → Bool} {w : List Char} (c : Char)
    (t : List Char) (hw : ∀ x ∈ w, p x = true) (hc : p c = false) :
    (w ++ c :: t).takeWhile p = w ∧ (w ++ c :: t).dropWhile p = c :: t := by
  induction w with
  | nil => simp [List.takeWhile, List.dropWhile, hc]
  | cons a w' ih =>
    have ha : p a = true := hw a (by simp)
    have ih' := ih (fun x hx => hw x (List.mem_cons_of_mem a hx))
    simp [List.takeWhile_cons, List.dropWhile_cons, ha, ih'.1, ih'.2]

theorem alpha_not_space {c : Char} (h : c.isAlpha = true) : pyIsSpace c = false := by
  by_contra hs
  simp only [pyIsSpace, Bool.not_eq_false, Bool.or_eq_true, decide_eq_true_eq] at hs
  rcases hs with ((((h1 | h1) | h1) | h1) | h1) | h1 <;> subst h1 <;>
    exact absurd h (by decide)

/-!
Idempotence lemmas for the three preprocessing steps.
-/

theorem normalizeNewlinesAux_no_cr (b : Bool) (cs : List Char) :
    '\r' ∉ normalizeNewlinesAux b cs := by
  induction cs generalizing b with
  | nil => simp [normalizeNewlinesAux]
  | cons c rest ih =>
    by_cases h1 : c = '\r'
    · simp [normalizeNewlinesAux, h1]
      exact fun h => ih true h
    · by_cases h2 : c = '\n'
      · cases b <;> simp [normalizeNewlinesAux, h1, h2] <;>
          exact fun h => ih false h
      · simp [normalizeNewlinesAux, h1, h2]
        exact ⟨fun h => absurd h.symm h1, ih false⟩

theorem normalizeNewlinesAux_of_no_cr {cs : List Char} (h : '\r' ∉ cs) :
    normalizeNewlinesAux false cs = cs := by
  induction cs with
  | nil => simp [normalizeNewlinesAux]
  | cons c rest ih =>
    simp at h
    by_cases h2 : c = '\n'
    · simp [normalizeNewlinesAux, Ne.symm h.1, h2, ih h.2]
    · simp [normalizeNewlinesAux, Ne.symm h.1, h2, ih h.2]

theorem normalizeNewlines_idem (cs : List Char) :
    normalizeNewlines (normalizeNewlines cs) = normalizeNewlines cs := by
  unfold normalizeNewlines
  exact normalizeNewlinesAux_of_no_cr (normalizeNewlinesAux_no_cr false cs)

theorem dropWhile_head_false {p : Char → Bool} {l : List Char} {c : Char}
    {r : List Char} (h : l.dropWhile p = c :: r) : p c = false := by
  induction l with
  | nil => simp [List.dropWhile] at h
  | cons a l' ih =>
    rw [List.dropWhile_cons] at h
    by_cases ha : p a = true
    · rw [if_pos ha] at h
      exact ih h
    · rw [if_neg ha] at h
      injection h with h1 h2
      rw [← h1]
      exact Bool.eq_false_iff.mpr ha

theorem stripBOM_idem (cs : List Char) : stripBOM (stripBOM cs) = stripBOM cs := by
  unfold stripBOM
  set p : Char → Bool := fun c => c = '\x00' || c = '﻿' with hp
  set Y := (if listStartsWith ['﻿'] cs then cs.drop 1 else cs).dropWhile p with hY
  have hns : listStartsWith ['﻿'] Y = false := by
    rcases hcase : Y with _ | ⟨c, r⟩
    · simp [listStartsWith]
    · have hc : p c = false := dropWhile_head_false (hY.symm.trans hcase)
      have hcf : ¬c = '﻿' := by
        intro hcf
        rw [hcf] at hc
        simp [hp] at hc
      simp [listStartsWith, hcf]
  rw [hns]
  simp only [Bool.false_eq_true, if_false]
  rw [hY]
  exact List.dropWhile_idempotent _ _

theorem removeCcLinesText_idem (cs : List Char) :
    removeCcLinesText (removeCcLinesText cs) = removeCcLinesText cs := by
  rcases hF : (splitLines cs).filter (fun l => !startsWithCc (l.dropWhile pyIsSpace))
    with _ | ⟨l0, ls⟩
  · unfold removeCcLinesText
    rw [hF]
    decide
  · unfold removeCcLinesText
    rw [hF]
    have hmem : ∀ l ∈ l0 :: ls,
        l ∈ (splitLines cs).filter (fun l => !startsWithCc (l.dropWhile pyIsSpace)) := by
      intro l hl
      rw [hF]
      exact hl
    have hnl : ∀ l ∈ l0 :: ls, '\n' ∉ l := fun l hl =>
      no_nl_of_mem_splitLines (List.mem_of_mem_filter (hmem l hl))
    rw [splitLines_joinLines (by simp) hnl]
    congr 1
    apply List.filter_eq_self.mpr
    intro a ha
    exact (List.mem_filter.1 (hmem a ha)).2

theorem select_blocks_ne_nil {blocks : List (List Char)} (count : Nat)
    (h : blocks ≠ []) : select_blocks count blocks ≠ [] := by
  cases blocks with
  | nil => exact absurd rfl h
  | cons b bs =>
    unfold select_blocks
    simp only [List.isEmpty_cons, Bool.false_eq_true, if_false]
    by_cases hc : count = 0
    · rw [if_pos hc]
      simp
    · rw [if_neg hc, Ne, List.drop_eq_nil_iff]
      simp only [List.length_cons]
      omega

theorem format_output_round_trip {bs : List (List Char)} (h : bs ≠ []) :
    stripCcMarks (format_output bs) =
      joinLines ((bs.map (fun b => splitLines b ++ [[]])).flatten) := by
  unfold format_output
  rw [if_neg (by simp [h])]
  set L := (bs.map (fun b =>
    (splitLines b).map (fun l => "#c# ".data ++ l) ++ ["#c# ".data])).flatten with hL
  have hLmem : ∀ l ∈ L, '\n' ∉ l := by
    intro l hl
    rw [hL] at hl
    obtain ⟨sub, hsub, hlsub⟩ := List.mem_flatten.1 hl
    obtain ⟨b, _, hb⟩ := List.mem_map.1 hsub
    rw [← hb] at hlsub
    rcases List.mem_append.1 hlsub with hin | hin
    · obtain ⟨l', hl', rfl⟩ := List.mem_map.1 hin
      have h1 : '\n' ∉ l' := no_nl_of_mem_splitLines hl'
      have h2 : '\n' ∉ "#c# ".data := by decide
      simp [h1, h2]
    · simp at hin
      subst hin
      decide
  have hLne : L ≠ [] := by
    rcases bs with _ | ⟨b0, bs'⟩
    · exact absurd rfl h
    · rw [hL]
      simp only [List.map_cons, List.flatten_cons, Ne, List.append_eq_nil]
      rintro ⟨h1, -⟩
      exact absurd h1 (by simp)
  unfold stripCcMarks
  rw [splitLines_joinLines hLne hLmem]
  congr 1
  rw [hL, List.map_flatten, List.map_map]
  congr 1
  apply List.map_congr_left
  intro b _
  simp only [Function.comp, List.map_append, List.map_map]
  congr 1
  · conv_rhs => rw [← List.map_id (splitLines b)]
    apply List.map_congr_left
    intro l _
    exact List.drop_left ['#', 'c', '#', ' '] l

/-!
The claims.
-/

/-- C9: applied to an empty block sequence, the Formatter returns exactly
the single-line no-commands notice. -/
theorem C9_formatter_empty :
    format_output [] = "#c# No commands found in transcript.".data := rfl

/-- C7 counterexample: the composed preprocessing pipeline is not
idempotent; removing a marker line can expose a byte-order mark that only
the second run strips. -/
theorem C7_counterexample :
    preprocessText (preprocessText "#c# x\n﻿y".data)
      ≠ preprocessText "#c# x\n﻿y".data := by decide

/-- C7 amended: each of the three preprocessing steps is individually
idempotent (line-ending normalization, BOM stripping, marker-line
removal), though their composition is not. -/
theorem C7_preprocessing_step_idem (text : List Char) :
    normalizeNewlines (normalizeNewlines text) = normalizeNewlines text ∧
    stripBOM (stripBOM text) = stripBOM text ∧
    removeCcLinesText (removeCcLinesText text) = removeCcLinesText text :=
  ⟨normalizeNewlines_idem text, stripBOM_idem text, removeCcLinesText_idem text⟩

/-- C6: for a positive requested count the selection is the trailing
subsequence of that many blocks in original order; a count at least the
length returns the whole sequence, the empty sequence gives an empty
result, and count 3 on a 5-block sequence returns the last 3 blocks. -/
theorem C6_selector (blocks : List (List Char)) (count : Nat) (h : 1 ≤ count) :
    select_blocks count blocks = (blocks.reverse.take count).reverse ∧
    (blocks.length ≤ count → select_blocks count blocks = blocks) ∧
    select_blocks count [] = [] ∧
    ∀ b1 b2 b3 b4 b5 : List Char,
      select_blocks 3 [b1, b2, b3, b4, b5] = [b3, b4, b5] := by
  have hc0 : count ≠ 0 := by omega
  refine ⟨?_, ?_, rfl, fun b1 b2 b3 b4 b5 => rfl⟩
  · cases blocks with
    | nil => simp [select_blocks]
    | cons b bs =>
      unfold select_blocks
      simp only [List.isEmpty_cons, Bool.false_eq_true, if_false, if_neg hc0]
      rw [List.reverse_take, List.reverse_reverse, List.length_reverse]
  · intro hlen
    cases blocks with
    | nil => simp [select_blocks]
    | cons b bs =>
      unfold select_blocks
      simp only [List.isEmpty_cons, Bool.false_eq_true, if_false, if_neg hc0]
      rw [Nat.sub_eq_zero_of_le hlen, List.drop_zero]

/-- C6 witness: the selector applied at count 3 on a concrete 5-block
sequence. -/
theorem C6_selector_witness :
    select_blocks 3 [['a'], ['b'], ['c'], ['d'], ['e']]
      = ([['a'], ['b'], ['c'], ['d'], ['e']].reverse.take 3).reverse :=
  (C6_selector [['a'], ['b'], ['c'], ['d'], ['e']] 3 (by decide)).1

/-- C5 counterexample: on the empty block sequence the Formatter returns
the no-commands notice, so stripping the marker prefixes does not
reconstruct the empty concatenation. -/
theorem C5_counterexample :
    stripCcMarks (format_output (select_blocks 1 [])) ≠
      joinLines (((select_blocks 1 ([] : List (List Char))).map
        (fun b => splitLines b ++ [[]])).flatten) := by decide

/-- C5 amended: for every non-empty block sequence and every count, the
Formatter applied to the Selector output, followed by stripping the
four-character marker prefix from each line, exactly reconstructs the
concatenation of the lines of the selected blocks with one blank separator
line per block. -/
theorem C5_format_round_trip (blocks : List (List Char)) (count : Nat)
    (h : blocks ≠ []) :
    stripCcMarks (format_output (select_blocks count blocks)) =
      joinLines (((select_blocks count blocks).map
        (fun b => splitLines b ++ [[]])).flatten) :=
  format_output_round_trip (select_blocks_ne_nil count h)

/-- C5 witness: the round trip at a concrete two-block sequence. -/
theorem C5_format_round_trip_witness :
    stripCcMarks (format_output (select_blocks 1 ["a\nb".data, "c".data])) =
      joinLines (((select_blocks 1 ["a\nb".data, "c".data]).map
        (fun b => splitLines b ++ [[]])).flatten) :=
  C5_format_round_trip ["a\nb".data, "c".data] 1 (by decide)

/-- C4: a block whose trimmed content immediately after the first prompt
match begins with the interruption token never appears in the output of
the extractor. -/
theorem C4_interruption_discard (text b suf : List Char)
    (hb : b ∈ parse_transcript text) (hs : promptSearchSuffix b = some suf) :
    listStartsWith "TerminatingError(".data (pyStrip suf) = false := by
  unfold parse_transcript at hb
  have hk : keepBlock b = true := (List.mem_filter.1 hb).2
  unfold keepBlock at hk
  rw [hs] at hk
  simp only [Bool.and_eq_true, Bool.not_eq_true'] at hk
  exact hk.2

/-- C4 witness: a concrete transcript whose single block has ordinary
content after the prompt. -/
theorem C4_interruption_discard_witness :
    listStartsWith "TerminatingError(".data (pyStrip "dir\nout".data) = false :=
  C4_interruption_discard "PS C:\\a> dir\nout".data "PS C:\\a> dir\nout".data
    "dir\nout".data (by decide) (by decide)

/-- C3 counterexample: a text none of whose lines is a separator line or
a prompt-marker line, on which the extractor still returns a block,
because the prompt pattern matches across the line break inside its
whitespace. -/
theorem C3_counterexample :
    ((splitLines "PS \nC:\\x> hi".data).all
        (fun l => !isSeparatorLine l && !isPromptLine l)) = true ∧
    parse_transcript "PS \nC:\\x> hi".data = ["PS \nC:\\x> hi".data] := by decide

/-- C3 amended: a segment is discarded exactly when it is empty or has no
match of the prompt pattern (a match may span a line break); hence any
input whose preprocessed text has no separator line and whose stripped
preprocessed text has no prompt match yields the empty sequence, and on
the two-segment scenario the extractor returns exactly the second
segment. -/
theorem C3_segment_filtering :
    (∀ text : List Char,
        (∀ l ∈ splitLines (preprocessText text), isSeparatorLine l = false) →
        promptSearchSuffix (pyStrip (preprocessText text)) = none →
        parse_transcript text = []) ∧
    parse_transcript
        "transcript header\n********************\nPS C:\\a> hi\nout".data
      = ["PS C:\\a> hi\nout".data] := by
  constructor
  · intro text hsep hprompt
    unfold parse_transcript
    rw [splitOnSep_of_no_sep hsep]
    have hk : keepBlock (pyStrip (joinLines (splitLines (preprocessText text))))
        = false := by
      rw [joinLines_splitLines]
      unfold keepBlock
      rw [hprompt]
      simp
    simp [hk]
  · decide

/-- C3 witness: the universal part applied to a transcript with neither
separator lines nor any prompt occurrence. -/
theorem C3_segment_filtering_witness :
    parse_transcript "no markers here\njust text".data = [] :=
  C3_segment_filtering.1 "no markers here\njust text".data (by decide) (by decide)

/-- C1 counterexample: the filter drops a short last block whose text
contains the token context only inside a longer word, so the drop
condition is substring containment, not whole-word containment. -/
theorem C1_counterexample :
    filter_self_referential ["PS C:\\u> dir".data, "PS C:\\u> mycontext".data]
        = ["PS C:\\u> dir".data] ∧
    containsWord "context".data
        ((joinLines (nonBlankTrimmedLines "PS C:\\u> mycontext".data)).map
          Char.toLower)
      = false := by decide

/-- C1 amended: the last block is dropped exactly when it has at most two
non-blank trimmed lines whose lowercased join contains the token context
as a substring (not necessarily as a whole word); otherwise the sequence
is returned unchanged. -/
theorem C1_self_reference_filter (blocks : List (List Char)) (b : List Char)
    (h : blocks.getLast? = some b) :
    (SelfRefDrop b → filter_self_referential blocks = blocks.dropLast) ∧
    (¬SelfRefDrop b → filter_self_referential blocks = blocks) := by
  have hfil : filter_self_referential blocks =
      if (nonBlankTrimmedLines b).length ≤ 2 then
        if containsSeq "context".data
            ((joinLines (nonBlankTrimmedLines b)).map Char.toLower) then
          blocks.dropLast
        else blocks
      else blocks := by
    unfold filter_self_referential
    rw [h]
  rw [hfil]
  constructor
  · rintro ⟨h1, h2⟩
    rw [if_pos h1, if_pos ((containsSeq_iff _ _).2 h2)]
  · intro hn
    by_cases h1 : (nonBlankTrimmedLines b).length ≤ 2
    · rw [if_pos h1]
      by_cases h2 : containsSeq "context".data
          ((joinLines (nonBlankTrimmedLines b)).map Char.toLower) = true
      · exact absurd ⟨h1, (containsSeq_iff _ _).1 h2⟩ hn
      · rw [if_neg h2]
    · rw [if_neg h1]

/-- C1 witness: a last block that is exactly the single prompt line
invoking this tool is dropped. -/
theorem C1_self_reference_filter_witness :
    filter_self_referential ["PS C:\\u> dir".data, "PS C:\\Users\\x> context".data]
      = ["PS C:\\u> dir".data] :=
  (C1_self_reference_filter _ "PS C:\\Users\\x> context".data (by decide)).1
    ⟨by decide, "ps c:\\users\\x> ".data, [], by decide⟩

/-- C2 counterexample: the prompt regex accepts a drive letter and colon
with no backslash after it, both at the line level and through the whole
extractor, contradicting the mandatory-backslash reading. -/
theorem C2_counterexample :
    isPromptLine "PS C:x> echo".data = true ∧
    specPromptLine "PS C:x> echo".data = false ∧
    parse_transcript "PS C:x> echo\nout".data = ["PS C:x> echo\nout".data] := by
  decide

/-- C2 amended: the prompt pattern matches exactly the texts of the form
PS, then a non-empty whitespace run, then a letter, a colon, arbitrary
newline-free text, and a gt sign followed by anything; no backslash is
required after the colon. -/
theorem C2_prompt_marker_pattern (l : List Char) :
    isPromptLine l = true ↔
      ∃ (w : List Char) (c : Char) (mid tl : List Char),
        l = 'P' :: 'S' :: (w ++ c :: ':' :: (mid ++ '>' :: tl)) ∧
        w ≠ [] ∧ (∀ x ∈ w, pyIsSpace x = true) ∧ c.isAlpha = true ∧ '\n' ∉ mid := by
  constructor
  · intro h
    rcases l with _ | ⟨a, _ | ⟨b, rest⟩⟩
    · simp [isPromptLine, matchPromptAt] at h
    · simp [isPromptLine, matchPromptAt] at h
    · simp only [isPromptLine, matchPromptAt] at h
      by_cases hab : (a = 'P' && b = 'S') = true
      · rw [if_pos hab] at h
        simp only [Bool.and_eq_true, decide_eq_true_eq] at hab
        by_cases hw : (rest.takeWhile pyIsSpace).isEmpty = true
        · rw [if_pos hw] at h
          simp at h
        · rw [if_neg hw] at h
          rcases hd : rest.dropWhile pyIsSpace with _ | ⟨c, _ | ⟨d, rest2⟩⟩ <;>
            rw [hd] at h
          · simp [promptAfterSpace] at h
          · simp [promptAfterSpace] at h
          · simp only [promptAfterSpace] at h
            by_cases hcd : (c.isAlpha && d = ':') = true
            · rw [if_pos hcd] at h
              rcases hg : afterLastGt rest2 with _ | suf <;> rw [hg] at h
              · simp at h
              · obtain ⟨mid, hmid, hnl⟩ := afterLastGt_some hg
                simp only [Bool.and_eq_true, decide_eq_true_eq] at hcd
                refine ⟨rest.takeWhile pyIsSpace, c, mid, suf, ?_, ?_,
                  fun x hx => List.mem_takeWhile_imp hx, hcd.1, hnl⟩
                · rw [hab.1, hab.2]
                  have hrest : rest = rest.takeWhile pyIsSpace ++ rest.dropWhile pyIsSpace :=
                    (List.takeWhile_append_dropWhile pyIsSpace rest).symm
                  conv_lhs => rw [hrest, hd, hcd.2, hmid]
                · simpa using hw
            · rw [if_neg hcd] at h
              simp at h
      · rw [if_neg hab] at h
        simp at h
  · rintro ⟨w, c, mid, tl, rfl, hw, hws, hca, hnl⟩
    have hsp : pyIsSpace c = false := alpha_not_space hca
    obtain ⟨htk, hdw⟩ := takeWhile_all_append c (':' :: (mid ++ '>' :: tl)) hws hsp
    have hwe : w.isEmpty = false := by
      cases w
      · exact absurd rfl hw
      · rfl
    have hg := afterLastGt_isSome tl hnl
    rcases hgr : afterLastGt (mid ++ '>' :: tl) with _ | suf
    · rw [hgr] at hg
      simp at hg
    · simp [isPromptLine, matchPromptAt, promptAfterSpace, htk, hdw, hwe, hca, hgr]

/-- C2 witness: the characterization instantiated at the backslash-free
prompt line, which therefore is matched. -/
theorem C2_prompt_marker_pattern_witness :
    isPromptLine "PS C:x> echo".data = true :=
  (C2_prompt_marker_pattern "PS C:x> echo".data).2
    ⟨[' '], 'C', "x".data, " echo".data, by decide, by decide,
      by decide, by decide, by decide⟩

/-- C8: a negative count argument is not rejected; its absolute value is
used and the advisory flag is set, while a zero or a non-numeric value
other than the word all fails validation. -/
theorem C8_count_argument (s : List Char) (i : Int) :
    (pyInt s = some i → i < 0 →
      resolve_count false s = CountResult.use i.natAbs true) ∧
    (pyInt s = some 0 → resolve_count false s = CountResult.invalid) ∧
    (pyInt s = none → s ≠ "all".data → resolve_count false s = CountResult.invalid) := by
  refine ⟨?_, ?_, ?_⟩
  · intro hp hneg
    have hall : (s == "all".data) = false := by
      cases hbe : s == "all".data
      · rfl
      · rw [beq_iff_eq.1 hbe] at hp
        rw [show pyInt "all".data = none from by decide] at hp
        exact Option.noConfusion hp
    unfold resolve_count
    rw [Bool.false_or, hall]
    simp only [Bool.false_eq_true, if_false]
    rw [hp]
    show (if i.natAbs < 1 then CountResult.invalid
        else CountResult.use i.natAbs (decide (i < 0))) = _
    rw [if_neg (by omega)]
    simp [hneg]
  · intro hp
    have hall : (s == "all".data) = false := by
      cases hbe : s == "all".data
      · rfl
      · rw [beq_iff_eq.1 hbe] at hp
        exact absurd hp (by decide)
    unfold resolve_count
    rw [Bool.false_or, hall]
    simp only [Bool.false_eq_true, if_false]
    rw [hp]
    show (if (0 : Int).natAbs < 1 then CountResult.invalid
        else CountResult.use (0 : Int).natAbs (decide ((0 : Int) < 0)))
      = CountResult.invalid
    rw [if_pos (by decide)]
  · intro hp hall
    unfold resolve_count
    rw [Bool.false_or]
    rw [show (s == "all".data) = false by simpa using hall]
    simp only [Bool.false_eq_true, if_false]
    rw [hp]

/-- C8 witness: the three branches at the concrete arguments minus two,
zero and a word. -/
theorem C8_count_argument_witness :
    resolve_count false "-2".data = CountResult.use 2 true ∧
    resolve_count false "0".data = CountResult.invalid ∧
    resolve_count false "abc".data = CountResult.invalid :=
  ⟨by have h := (C8_count_argument "-2".data (-2)).1 (by decide) (by decide)
      simpa using h,
   (C8_count_argument "0".data 0).2.1 (by decide),
   (C8_count_argument "abc".data 0).2.2 (by decide) (by decide)⟩

/-- C10: any non-blank input to the tool wrapper that is neither a
spelling of all nor an all-digit positive number is rejected with a
message beginning Error: Invalid input, and the script is not invoked. -/
theorem C10_tool_input_validation (input : List Char)
    (h1 : pyStrip input ≠ [])
    (h2 : (pyStrip input).map Char.toLower ≠ "all".data)
    (h3 : (pyStrip input).map Char.toLower ≠ "-a".data)
    (h4 : (pyStrip input).map Char.toLower ≠ "--all".data)
    (h5 : ¬((pyStrip input).all Char.isDigit = true ∧
        0 < decimalVal (pyStrip input))) :
    context_tool input = ToolResult.error (invalidInputMsg (pyStrip input)) ∧
    listStartsWith "Error: Invalid input".data (invalidInputMsg (pyStrip input))
      = true := by
  constructor
  · unfold context_tool
    rw [if_neg (by simp [h1])]
    rw [if_neg (by simp [h2, h3, h4])]
    rw [if_neg (by simp only [Bool.and_eq_true, decide_eq_true_eq]; exact h5)]
  · exact listStartsWith_append _ _

/-- C10 witness: the wrapper rejects a negative number and both
environment-flag spellings without running the script. -/
theorem C10_tool_input_validation_witness :
    context_tool "-e".data = ToolResult.error (invalidInputMsg "-e".data) ∧
    context_tool "-2".data = ToolResult.error (invalidInputMsg "-2".data) ∧
    context_tool "--environment".data
      = ToolResult.error (invalidInputMsg "--environment".data) :=
  ⟨(C10_tool_input_validation "-e".data (by decide) (by decide) (by decide)
      (by decide) (by decide)).1,
   (C10_tool_input_validation "-2".data (by decide) (by decide) (by decide)
      (by decide) (by decide)).1,
   (C10_tool_input_validation "--environment".data (by decide) (by decide)
      (by decide) (by decide) (by decide)).1⟩
